import Mathlib

/-!
Verification development for the NFT activity tracker (`src/server.js`).

The embedding below translates the pure core of the server:
* `detectEvents` (server.js lines 219-359): the state-diff detection engine,
* the merge loop of `aggregatePeriod` (server.js lines 448-464): the rollup merger,
* the file-filtering step of `aggregatePeriod` (server.js line 427 and the
  `slice(0, maxFiles)` on line 448): the period selector,
* the snapshot-count check of the `/process-daily-events` handler
  (server.js lines 188-195).

JavaScript objects keyed by NFT id are embedded as association lists
`List (Nat × List Event)`; snapshots (after the array normalization of
lines 238-243) are `List NFTRecord`.
-/

set_option autoImplicit false

/-- One per-entity record of a normalized snapshot: the fields of the source
JSON that `detectEvents` reads (`id`, `owner`, `bbl`, `boost`, `daodao`,
`enterprise`, `broken`). -/
structure NFTRecord where
  id : Nat
  owner : String
  bbl : Bool
  boost : Bool
  daodao : Bool
  enterprise : Bool
  broken : Bool
  deriving Repr, DecidableEq

/-- A normalized snapshot: the array of records (server.js lines 238-243). -/
abbrev Snapshot := List NFTRecord

/-- The tagged event variants pushed by `detectEvents`
(server.js lines 261-345), each carrying exactly the fields of the
corresponding JavaScript object literal. -/
inductive Event where
  | sale (marketplace : String) (fromOwner toOwner : String) (hour : Nat)
  | transfer (fromOwner toOwner : String) (hour : Nat)
  | listing (marketplace : String) (hour : Nat)
  | delisting (marketplace : String) (hour : Nat)
  | stake (protocol : String) (hour : Nat)
  | unstake (protocol : String) (hour : Nat)
  | break_change (fromBroken toBroken : Bool) (hour : Nat)
  deriving Repr, DecidableEq

/-- The summary-counter block (server.js lines 221-235). -/
structure Summary where
  bbl_sales : Nat
  boost_sales : Nat
  transfers : Nat
  bbl_listings : Nat
  bbl_delistings : Nat
  boost_listings : Nat
  boost_delistings : Nat
  daodao_stakes : Nat
  daodao_unstakes : Nat
  enterprise_stakes : Nat
  enterprise_unstakes : Nat
  breaks : Nat
  total_events : Nat
  deriving Repr, DecidableEq

/-- The all-zero summary literal that both `detectEvents` and
`aggregatePeriod` start from. -/
def zeroSummary : Summary :=
  { bbl_sales := 0
    boost_sales := 0
    transfers := 0
    bbl_listings := 0
    bbl_delistings := 0
    boost_listings := 0
    boost_delistings := 0
    daodao_stakes := 0
    daodao_unstakes := 0
    enterprise_stakes := 0
    enterprise_unstakes := 0
    breaks := 0
    total_events := 0 }

/-- An event log artifact: `summary` plus the sparse `activity_log`
object, embedded as an association list from NFT id to event list. -/
structure EventLog where
  summary : Summary
  activityLog : List (Nat × List Event)
  deriving Repr, DecidableEq

/-- The running state while scanning one entity: the `events` array being
built for that entity and the shared mutable `summary`. -/
abbrev DetState := List Event × Summary

/-- Owner-change block of the pair scan (server.js lines 256-288):
on an owner change push exactly one of sale-bbl / sale-boost / transfer,
with `bbl` taking precedence, and bump the matching counter plus
`total_events`. -/
def ownerStage (prev curr : NFTRecord) (i : Nat) (st : DetState) : DetState :=
  if prev.owner ≠ curr.owner then
    if prev.bbl = true then
      (st.1 ++ [Event.sale "bbl" prev.owner curr.owner i],
       { st.2 with bbl_sales := st.2.bbl_sales + 1,
                   total_events := st.2.total_events + 1 })
    else if prev.boost = true then
      (st.1 ++ [Event.sale "boost" prev.owner curr.owner i],
       { st.2 with boost_sales := st.2.boost_sales + 1,
                   total_events := st.2.total_events + 1 })
    else
      (st.1 ++ [Event.transfer prev.owner curr.owner i],
       { st.2 with transfers := st.2.transfers + 1,
                   total_events := st.2.total_events + 1 })
  else st

/-- Market-A (`bbl`) listing-flag block (server.js lines 291-300). -/
def bblStage (prev curr : NFTRecord) (i : Nat) (st : DetState) : DetState :=
  if prev.bbl ≠ curr.bbl then
    if curr.bbl = true then
      (st.1 ++ [Event.listing "bbl" i],
       { st.2 with bbl_listings := st.2.bbl_listings + 1,
                   total_events := st.2.total_events + 1 })
    else
      (st.1 ++ [Event.delisting "bbl" i],
       { st.2 with bbl_delistings := st.2.bbl_delistings + 1,
                   total_events := st.2.total_events + 1 })
  else st

/-- Market-B (`boost`) listing-flag block (server.js lines 302-311). -/
def boostStage (prev curr : NFTRecord) (i : Nat) (st : DetState) : DetState :=
  if prev.boost ≠ curr.boost then
    if curr.boost = true then
      (st.1 ++ [Event.listing "boost" i],
       { st.2 with boost_listings := st.2.boost_listings + 1,
                   total_events := st.2.total_events + 1 })
    else
      (st.1 ++ [Event.delisting "boost" i],
       { st.2 with boost_delistings := st.2.boost_delistings + 1,
                   total_events := st.2.total_events + 1 })
  else st

/-- `daodao` staking-flag block (server.js lines 314-323). -/
def daodaoStage (prev curr : NFTRecord) (i : Nat) (st : DetState) : DetState :=
  if prev.daodao ≠ curr.daodao then
    if curr.daodao = true then
      (st.1 ++ [Event.stake "daodao" i],
       { st.2 with daodao_stakes := st.2.daodao_stakes + 1,
                   total_events := st.2.total_events + 1 })
    else
      (st.1 ++ [Event.unstake "daodao" i],
       { st.2 with daodao_unstakes := st.2.daodao_unstakes + 1,
                   total_events := st.2.total_events + 1 })
  else st

/-- `enterprise` staking-flag block (server.js lines 325-334). -/
def enterpriseStage (prev curr : NFTRecord) (i : Nat) (st : DetState) : DetState :=
  if prev.enterprise ≠ curr.enterprise then
    if curr.enterprise = true then
      (st.1 ++ [Event.stake "enterprise" i],
       { st.2 with enterprise_stakes := st.2.enterprise_stakes + 1,
                   total_events := st.2.total_events + 1 })
    else
      (st.1 ++ [Event.unstake "enterprise" i],
       { st.2 with enterprise_unstakes := st.2.enterprise_unstakes + 1,
                   total_events := st.2.total_events + 1 })
  else st

/-- Break-flag block (server.js lines 337-346). -/
def brokenStage (prev curr : NFTRecord) (i : Nat) (st : DetState) : DetState :=
  if prev.broken ≠ curr.broken then
    (st.1 ++ [Event.break_change prev.broken curr.broken i],
     { st.2 with breaks := st.2.breaks + 1,
                 total_events := st.2.total_events + 1 })
  else st

/-- One adjacent pair, one entity: the body of the inner loop of
`detectEvents` (server.js lines 256-346), evaluated as the six independent
blocks in source order. -/
def processPair (prev curr : NFTRecord) (i : Nat) (st : DetState) : DetState :=
  brokenStage prev curr i
    (enterpriseStage prev curr i
      (daodaoStage prev curr i
        (boostStage prev curr i
          (bblStage prev curr i
            (ownerStage prev curr i st)))))

/-- The inner loop over snapshot pairs for one entity
(server.js lines 249-253): hour index `i` starts at 1; a pair where the
entity is missing from either endpoint is skipped. -/
def processEntity : List Snapshot → Nat → Nat → DetState → DetState
  | prev :: curr :: rest, nftId, i, st =>
    let st' :=
      match prev.find? (fun n => n.id == nftId),
            curr.find? (fun n => n.id == nftId) with
      | some p, some c => processPair p c i st
      | _, _ => st
    processEntity (curr :: rest) nftId (i + 1) st'
  | _, _, _, st => st

/-- The outer loop step of `detectEvents` for one `nftId`: run the pair scan
with a fresh `events` array and the shared summary, and record the entity in
the activity log only when its event list is non-empty
(server.js lines 246-353). -/
def detectStep (snapshots : List Snapshot)
    (acc : List (Nat × List Event) × Summary) (nftId : Nat) :
    List (Nat × List Event) × Summary :=
  let r := processEntity snapshots nftId 1 ([], acc.2)
  (if 0 < r.1.length then acc.1 ++ [(nftId, r.1)] else acc.1, r.2)

/-- `detectEvents` (server.js lines 219-359): scan NFT ids 1..10000. -/
def detectEvents (snapshots : List Snapshot) : EventLog :=
  let res := (List.range' 1 10000).foldl (detectStep snapshots) ([], zeroSummary)
  { summary := res.2, activityLog := res.1 }

/-- The `/process-daily-events` handler's data-dependent core
(server.js lines 188-195): it throws only when the snapshot list is empty,
and otherwise runs `detectEvents` on whatever snapshots were found. -/
def processDailyEvents (snapshots : List Snapshot) : Except String EventLog :=
  if snapshots.length = 0 then Except.error "No snapshots found"
  else Except.ok (detectEvents snapshots)

/-- Element-wise summary addition: the `for key in data.summary` loop of
`aggregatePeriod` (server.js lines 453-455) on same-shape summaries. -/
def Summary.add (a b : Summary) : Summary :=
  { bbl_sales := a.bbl_sales + b.bbl_sales
    boost_sales := a.boost_sales + b.boost_sales
    transfers := a.transfers + b.transfers
    bbl_listings := a.bbl_listings + b.bbl_listings
    bbl_delistings := a.bbl_delistings + b.bbl_delistings
    boost_listings := a.boost_listings + b.boost_listings
    boost_delistings := a.boost_delistings + b.boost_delistings
    daodao_stakes := a.daodao_stakes + b.daodao_stakes
    daodao_unstakes := a.daodao_unstakes + b.daodao_unstakes
    enterprise_stakes := a.enterprise_stakes + b.enterprise_stakes
    enterprise_unstakes := a.enterprise_unstakes + b.enterprise_unstakes
    breaks := a.breaks + b.breaks
    total_events := a.total_events + b.total_events }

/-- Merging one input entity entry into the combined activity log
(server.js lines 458-463): create the key with an empty array when absent,
then push the input's events onto it. -/
def addEntry (al : List (Nat × List Event)) (id : Nat) (evs : List Event) :
    List (Nat × List Event) :=
  if al.any (fun p => p.1 == id) then
    al.map (fun p => if p.1 == id then (p.1, p.2 ++ evs) else p)
  else al ++ [(id, evs)]

/-- The `for nftId in data.activity_log` loop (server.js lines 458-463):
fold every entity entry of one input log into the combined activity log. -/
def mergeActivity (acc es : List (Nat × List Event)) : List (Nat × List Event) :=
  es.foldl (fun a p => addEntry a p.1 p.2) acc

/-- Merging one whole input log into the combined log: the body of the
`for file of relevantFiles` loop (server.js lines 448-464). -/
def mergeStep (combined data : EventLog) : EventLog :=
  { summary := Summary.add combined.summary data.summary
    activityLog := mergeActivity combined.activityLog data.activityLog }

/-- The empty combined log `aggregatePeriod` starts from
(server.js lines 429-446). -/
def emptyCombined : EventLog := { summary := zeroSummary, activityLog := [] }

/-- The rollup merger: fold the selected input logs, in order, into the
empty combined log (server.js lines 429-464). -/
def mergeLogs (logs : List EventLog) : EventLog :=
  logs.foldl mergeStep emptyCombined

/-- Period keys and file names, embedded as their character lists so that
the selector is fully computable inside the kernel. -/
abbrev PeriodKey := List Char

/-- `periodId.split('-')[0]` of server.js line 427: the leading year
component of the target period key (the text before the first dash). -/
def periodYearOf (periodId : PeriodKey) : PeriodKey :=
  periodId.takeWhile (fun c => c ≠ '-')

/-- The period selector realized by `aggregatePeriod`
(server.js lines 427 and 448): keep the files whose name starts with the
year component of the target period key, then cap at `maxFiles` — in the
incoming order, with no sorting and no finer period test. -/
def selectFiles (periodId : PeriodKey) (files : List PeriodKey) (maxFiles : Nat) :
    List PeriodKey :=
  (files.filter (fun f => (periodYearOf periodId).isPrefixOf f)).take maxFiles

/-- Modelled from the spec: full month membership for a daily file key —
a daily key `YYYY-MM-DD.json` belongs to month `YYYY-MM` exactly when it
extends that month key with a dash (section 4.3 demands membership in "the
specific month", not a shared year prefix). -/
def monthMembership (monthKey fileKey : PeriodKey) : Bool :=
  (monthKey ++ ['-']).isPrefixOf fileKey

/-- The sum of the twelve specific counters (every summary field except
`total_events`). -/
def othersSum (s : Summary) : Nat :=
  s.bbl_sales + s.boost_sales + s.transfers + s.bbl_listings +
  s.bbl_delistings + s.boost_listings + s.boost_delistings +
  s.daodao_stakes + s.daodao_unstakes + s.enterprise_stakes +
  s.enterprise_unstakes + s.breaks

/-- Total number of events across all entries of an activity log. -/
def totalCount (al : List (Nat × List Event)) : Nat :=
  (al.map (fun p => p.2.length)).sum

/-- The key set of an activity log. -/
def logKeys (al : List (Nat × List Event)) : List Nat :=
  al.map Prod.fst

/-- Reading `activity_log[id]` of the embedded object: the event list of
the first entry with that key, or the empty list when the key is absent. -/
def lookupLog (al : List (Nat × List Event)) (id : Nat) : List Event :=
  match al.find? (fun p => p.1 == id) with
  | some p => p.2
  | none => []

/-- The ownership-class events: sales and transfers (the events emitted by
the owner-change block). -/
def isOwnership : Event → Bool
  | Event.sale _ _ _ _ => true
  | Event.transfer _ _ _ => true
  | _ => false

/-- Invariant I1 of the spec: `total_events` equals the sum of the other
twelve counters and equals the total event count across the activity log. -/
def counterConsistent (L : EventLog) : Prop :=
  L.summary.total_events = othersSum L.summary ∧
  L.summary.total_events = totalCount L.activityLog

/-- Invariant P2 of the spec: every present activity-log entry is
non-empty. -/
def sparseLog (al : List (Nat × List Event)) : Prop :=
  ∀ p ∈ al, p.2 ≠ []

/-- A well-formed embedded activity log: as a JavaScript object it cannot
repeat a key. -/
def wfLog (L : EventLog) : Prop :=
  (logKeys L.activityLog).Nodup

/-- Concrete record for exercising the theorems. -/
def sampleRecord : NFTRecord :=
  { id := 1, owner := "alice", bbl := false, boost := false,
    daodao := false, enterprise := false, broken := false }

/-- Concrete pre-sale record: owner `x`, listed on both marketplaces. -/
def recPrevBoth : NFTRecord :=
  { id := 7, owner := "x", bbl := true, boost := true,
    daodao := false, enterprise := false, broken := false }

/-- Concrete post-sale record: owner `y`, flags unchanged. -/
def recCurrBoth : NFTRecord :=
  { id := 7, owner := "y", bbl := true, boost := true,
    daodao := false, enterprise := false, broken := false }

/-- Concrete record with an out-of-range id. -/
def recOutOfRange : NFTRecord :=
  { id := 10001, owner := "alice", bbl := false, boost := false,
    daodao := false, enterprise := false, broken := false }

/-- Concrete event fixtures. -/
def evTransfer : Event := Event.transfer "alice" "bob" 1

/-- Concrete event fixtures. -/
def evListing : Event := Event.listing "bbl" 2

/-- A one-transfer daily log for entity 42; satisfies invariant I1. -/
def logA : EventLog :=
  { summary := { zeroSummary with transfers := 1, total_events := 1 }
    activityLog := [(42, [evTransfer])] }

/-- A one-listing daily log for entity 42; satisfies invariant I1. -/
def logB : EventLog :=
  { summary := { zeroSummary with bbl_listings := 1, total_events := 1 }
    activityLog := [(42, [evListing])] }

/-- The common shape of all six classifier blocks: the block appends some
batch `d` of events and bumps `total_events` and the specific counters by
exactly the size of the batch. -/
def StageOK (g : DetState → DetState) : Prop :=
  ∀ (evs : List Event) (s : Summary), ∃ d : List Event,
    (g (evs, s)).1 = evs ++ d ∧
    (g (evs, s)).2.total_events = s.total_events + d.length ∧
    othersSum (g (evs, s)).2 = othersSum s + d.length

theorem Summary.zero_add (s : Summary) : Summary.add zeroSummary s = s := by
  cases s; simp only [Summary.add, zeroSummary, Summary.mk.injEq]; omega

theorem Summary.add_zero (s : Summary) : Summary.add s zeroSummary = s := by
  cases s; simp only [Summary.add, zeroSummary, Summary.mk.injEq]; omega

theorem Summary.add_comm (a b : Summary) : Summary.add a b = Summary.add b a := by
  cases a; cases b; simp only [Summary.add, Summary.mk.injEq]; omega

theorem Summary.add_assoc (a b c : Summary) :
    Summary.add (Summary.add a b) c = Summary.add a (Summary.add b c) := by
  cases a; cases b; cases c; simp only [Summary.add, Summary.mk.injEq]; omega

theorem Summary.add_right_comm (z a b : Summary) :
    Summary.add (Summary.add z a) b = Summary.add (Summary.add z b) a := by
  cases z; cases a; cases b; simp only [Summary.add, Summary.mk.injEq]; omega

theorem othersSum_add (a b : Summary) :
    othersSum (Summary.add a b) = othersSum a + othersSum b := by
  cases a; cases b; simp only [othersSum, Summary.add]; omega

theorem total_events_add (a b : Summary) :
    (Summary.add a b).total_events = a.total_events + b.total_events := rfl

theorem ownerStage_ok (prev curr : NFTRecord) (i : Nat) :
    StageOK (ownerStage prev curr i) := by
  intro evs s
  dsimp only [ownerStage]
  split_ifs
  · exact ⟨[Event.sale "bbl" prev.owner curr.owner i], rfl, by simp,
      by simp only [othersSum, List.length_singleton]; omega⟩
  · exact ⟨[Event.sale "boost" prev.owner curr.owner i], rfl, by simp,
      by simp only [othersSum, List.length_singleton]; omega⟩
  · exact ⟨[Event.transfer prev.owner curr.owner i], rfl, by simp,
      by simp only [othersSum, List.length_singleton]; omega⟩
  · exact ⟨[], by simp, by simp, by simp⟩

theorem bblStage_ok (prev curr : NFTRecord) (i : Nat) :
    StageOK (bblStage prev curr i) := by
  intro evs s
  dsimp only [bblStage]
  split_ifs
  · exact ⟨[Event.listing "bbl" i], rfl, by simp,
      by simp only [othersSum, List.length_singleton]; omega⟩
  · exact ⟨[Event.delisting "bbl" i], rfl, by simp,
      by simp only [othersSum, List.length_singleton]; omega⟩
  · exact ⟨[], by simp, by simp, by simp⟩

theorem boostStage_ok (prev curr : NFTRecord) (i : Nat) :
    StageOK (boostStage prev curr i) := by
  intro evs s
  dsimp only [boostStage]
  split_ifs
  · exact ⟨[Event.listing "boost" i], rfl, by simp,
      by simp only [othersSum, List.length_singleton]; omega⟩
  · exact ⟨[Event.delisting "boost" i], rfl, by simp,
      by simp only [othersSum, List.length_singleton]; omega⟩
  · exact ⟨[], by simp, by simp, by simp⟩

theorem daodaoStage_ok (prev curr : NFTRecord) (i : Nat) :
    StageOK (daodaoStage prev curr i) := by
  intro evs s
  dsimp only [daodaoStage]
  split_ifs
  · exact ⟨[Event.stake "daodao" i], rfl, by simp,
      by simp only [othersSum, List.length_singleton]; omega⟩
  · exact ⟨[Event.unstake "daodao" i], rfl, by simp,
      by simp only [othersSum, List.length_singleton]; omega⟩
  · exact ⟨[], by simp, by simp, by simp⟩

theorem enterpriseStage_ok (prev curr : NFTRecord) (i : Nat) :
    StageOK (enterpriseStage prev curr i) := by
  intro evs s
  dsimp only [enterpriseStage]
  split_ifs
  · exact ⟨[Event.stake "enterprise" i], rfl, by simp,
      by simp only [othersSum, List.length_singleton]; omega⟩
  · exact ⟨[Event.unstake "enterprise" i], rfl, by simp,
      by simp only [othersSum, List.length_singleton]; omega⟩
  · exact ⟨[], by simp, by simp, by simp⟩

theorem brokenStage_ok (prev curr : NFTRecord) (i : Nat) :
    StageOK (brokenStage prev curr i) := by
  intro evs s
  dsimp only [brokenStage]
  split_ifs
  · exact ⟨[Event.break_change prev.broken curr.broken i], rfl, by simp,
      by simp only [othersSum, List.length_singleton]; omega⟩
  · exact ⟨[], by simp, by simp, by simp⟩

theorem stageOK_comp {g h : DetState → DetState}
    (hg : StageOK g) (hh : StageOK h) : StageOK (fun st => h (g st)) := by
  intro evs s
  obtain ⟨d1, h1, h2, h3⟩ := hg evs s
  obtain ⟨d2, k1, k2, k3⟩ := hh (g (evs, s)).1 (g (evs, s)).2
  refine ⟨d1 ++ d2, ?_, ?_, ?_⟩
  · calc (h (g (evs, s))).1 = (g (evs, s)).1 ++ d2 := k1
      _ = (evs ++ d1) ++ d2 := by rw [h1]
      _ = evs ++ (d1 ++ d2) := by rw [List.append_assoc]
  · rw [show (h (g (evs, s))).2.total_events =
        (g (evs, s)).2.total_events + d2.length from k2, h2]
    simp [List.length_append]; omega
  · rw [show othersSum (h (g (evs, s))).2 =
        othersSum (g (evs, s)).2 + d2.length from k3, h3]
    simp [List.length_append]; omega

theorem processPair_ok (prev curr : NFTRecord) (i : Nat) :
    StageOK (processPair prev curr i) := by
  have h1 : StageOK (fun st => bblStage prev curr i (ownerStage prev curr i st)) :=
    stageOK_comp (ownerStage_ok prev curr i) (bblStage_ok prev curr i)
  have h2 : StageOK (fun st =>
      boostStage prev curr i (bblStage prev curr i (ownerStage prev curr i st))) :=
    stageOK_comp h1 (boostStage_ok prev curr i)
  have h3 : StageOK (fun st => daodaoStage prev curr i (boostStage prev curr i
      (bblStage prev curr i (ownerStage prev curr i st)))) :=
    stageOK_comp h2 (daodaoStage_ok prev curr i)
  have h4 : StageOK (fun st => enterpriseStage prev curr i (daodaoStage prev curr i
      (boostStage prev curr i (bblStage prev curr i (ownerStage prev curr i st))))) :=
    stageOK_comp h3 (enterpriseStage_ok prev curr i)
  have h5 : StageOK (fun st => brokenStage prev curr i (enterpriseStage prev curr i
      (daodaoStage prev curr i (boostStage prev curr i
        (bblStage prev curr i (ownerStage prev curr i st)))))) :=
    stageOK_comp h4 (brokenStage_ok prev curr i)
  exact h5

theorem processEntity_ok (snaps : List Snapshot) :
    ∀ (nftId i : Nat), StageOK (fun st => processEntity snaps nftId i st) := by
  induction snaps with
  | nil =>
    intro nftId i evs s
    exact ⟨[], by simp [processEntity], by simp [processEntity], by simp [processEntity]⟩
  | cons prev tail ih =>
    cases tail with
    | nil =>
      intro nftId i evs s
      exact ⟨[], by simp [processEntity], by simp [processEntity], by simp [processEntity]⟩
    | cons curr rest =>
      intro nftId i evs s
      cases hp : prev.find? (fun n => n.id == nftId) with
      | none =>
        simp only [processEntity, hp]
        exact ih nftId (i + 1) evs s
      | some p =>
        cases hc : curr.find? (fun n => n.id == nftId) with
        | none =>
          simp only [processEntity, hp, hc]
          exact ih nftId (i + 1) evs s
        | some c =>
          simp only [processEntity, hp, hc]
          exact stageOK_comp (processPair_ok p c i) (ih nftId (i + 1)) evs s

theorem totalCount_append (l₁ l₂ : List (Nat × List Event)) :
    totalCount (l₁ ++ l₂) = totalCount l₁ + totalCount l₂ := by
  simp [totalCount]

theorem detectStep_inv (snaps : List Snapshot)
    (acc : List (Nat × List Event) × Summary) (nftId : Nat)
    (h1 : acc.2.total_events = othersSum acc.2)
    (h2 : acc.2.total_events = totalCount acc.1) :
    (detectStep snaps acc nftId).2.total_events =
      othersSum (detectStep snaps acc nftId).2 ∧
    (detectStep snaps acc nftId).2.total_events =
      totalCount (detectStep snaps acc nftId).1 := by
  obtain ⟨d, hd1, hd2, hd3⟩ := processEntity_ok snaps nftId 1 [] acc.2
  dsimp only at hd1 hd2 hd3
  rw [List.nil_append] at hd1
  simp only [detectStep, hd1]
  refine ⟨by omega, ?_⟩
  split
  · rw [totalCount_append]
    have hone : totalCount [(nftId, d)] = d.length := by simp [totalCount]
    omega
  · next hlen => omega

theorem detect_fold_inv (snaps : List Snapshot) (ids : List Nat) :
    ∀ acc : List (Nat × List Event) × Summary,
    acc.2.total_events = othersSum acc.2 →
    acc.2.total_events = totalCount acc.1 →
    (ids.foldl (detectStep snaps) acc).2.total_events =
      othersSum (ids.foldl (detectStep snaps) acc).2 ∧
    (ids.foldl (detectStep snaps) acc).2.total_events =
      totalCount (ids.foldl (detectStep snaps) acc).1 := by
  induction ids with
  | nil => intro acc h1 h2; exact ⟨h1, h2⟩
  | cons id rest ih =>
    intro acc h1 h2
    have h := detectStep_inv snaps acc id h1 h2
    rw [List.foldl_cons]
    exact ih (detectStep snaps acc id) h.1 h.2

theorem detectStep_sparse (snaps : List Snapshot)
    (acc : List (Nat × List Event) × Summary) (nftId : Nat)
    (h : ∀ p ∈ acc.1, p.2 ≠ []) :
    ∀ p ∈ (detectStep snaps acc nftId).1, p.2 ≠ [] := by
  intro p hp
  simp only [detectStep] at hp
  split at hp
  · next hlen =>
    rcases List.mem_append.mp hp with hmem | hmem
    · exact h p hmem
    · rcases List.mem_singleton.mp hmem with rfl
      exact List.length_pos.mp hlen
  · exact h p hp

theorem detect_fold_sparse (snaps : List Snapshot) (ids : List Nat) :
    ∀ acc : List (Nat × List Event) × Summary,
    (∀ p ∈ acc.1, p.2 ≠ []) →
    ∀ p ∈ (ids.foldl (detectStep snaps) acc).1, p.2 ≠ [] := by
  induction ids with
  | nil => intro acc h; exact h
  | cons id rest ih =>
    intro acc h
    rw [List.foldl_cons]
    exact ih (detectStep snaps acc id) (detectStep_sparse snaps acc id h)

theorem detect_fold_keys (snaps : List Snapshot) (ids : List Nat) :
    ∀ acc : List (Nat × List Event) × Summary,
    ∀ p ∈ (ids.foldl (detectStep snaps) acc).1, p ∈ acc.1 ∨ p.1 ∈ ids := by
  induction ids with
  | nil => intro acc p hp; exact Or.inl hp
  | cons id rest ih =>
    intro acc p hp
    rw [List.foldl_cons] at hp
    rcases ih (detectStep snaps acc id) p hp with h | h
    · simp only [detectStep] at h
      split at h
      · rcases List.mem_append.mp h with hmem | hmem
        · exact Or.inl hmem
        · rcases List.mem_singleton.mp hmem with rfl
          exact Or.inr (List.mem_cons_self id rest)
      · exact Or.inl h
    · exact Or.inr (List.mem_cons_of_mem id h)

theorem find?_filter_of_id (l : List NFTRecord) (q : NFTRecord → Bool) (n : Nat)
    (h : ∀ r : NFTRecord, r.id = n → q r = true) :
    (l.filter q).find? (fun r => r.id == n) = l.find? (fun r => r.id == n) := by
  induction l with
  | nil => rfl
  | cons a t ih =>
    by_cases ha : a.id = n
    · have hq : q a = true := h a ha
      simp [List.filter_cons, hq, List.find?_cons, ha]
    · have hbeq : (a.id == n) = false := by simp [ha]
      cases hq : q a with
      | false => simp [List.filter_cons, hq, List.find?_cons, hbeq, ih]
      | true => simp [List.filter_cons, hq, List.find?_cons, hbeq, ih]

theorem processEntity_congr (q : NFTRecord → Bool) (nftId : Nat)
    (h : ∀ r : NFTRecord, r.id = nftId → q r = true) :
    ∀ (snaps : List Snapshot) (i : Nat) (st : DetState),
    processEntity (snaps.map (fun s => s.filter q)) nftId i st =
      processEntity snaps nftId i st := by
  intro snaps
  induction snaps with
  | nil => intro i st; rfl
  | cons prev tail ih =>
    cases tail with
    | nil => intro i st; rfl
    | cons curr rest =>
      intro i st
      simp only [List.map_cons]
      simp only [processEntity]
      rw [find?_filter_of_id prev q nftId h, find?_filter_of_id curr q nftId h]
      rw [← List.map_cons]
      exact ih (i + 1) _

theorem foldl_congr_on {α β : Type} (l : List β) (f g : α → β → α)
    (h : ∀ (a : α) (b : β), b ∈ l → f a b = g a b) :
    ∀ a : α, l.foldl f a = l.foldl g a := by
  induction l with
  | nil => intro a; rfl
  | cons b t ih =>
    intro a
    rw [List.foldl_cons, List.foldl_cons, h a b (List.mem_cons_self b t)]
    exact ih (fun a b hb => h a b (List.mem_cons_of_mem _ hb)) _

theorem foldl_fixed_of {α β : Type} (l : List β) (f : α → β → α)
    (h : ∀ (a : α) (b : β), f a b = a) : ∀ a : α, l.foldl f a = a := by
  induction l with
  | nil => intro a; rfl
  | cons b t ih => intro a; rw [List.foldl_cons, h a b]; exact ih a

theorem detectEvents_single (s : Snapshot) :
    detectEvents [s] = { summary := zeroSummary, activityLog := [] } := by
  have hstep : ∀ (acc : List (Nat × List Event) × Summary) (id : Nat),
      detectStep [s] acc id = acc := by
    intro acc id
    simp [detectStep, processEntity]
  simp only [detectEvents]
  rw [foldl_fixed_of _ _ hstep]

theorem mem_keys_of_addEntry (al : List (Nat × List Event)) (id : Nat)
    (evs : List Event) (x : Nat) :
    x ∈ logKeys (addEntry al id evs) ↔ x ∈ logKeys al ∨ x = id := by
  simp only [addEntry]
  split
  · next hany =>
    have hkeys : logKeys (al.map fun p => if p.1 == id then (p.1, p.2 ++ evs) else p) =
        logKeys al := by
      simp only [logKeys, List.map_map]
      apply List.map_congr_left
      intro p _
      by_cases hp : p.1 = id <;> simp [hp]
    rw [hkeys]
    have hid : id ∈ logKeys al := by
      rcases List.any_eq_true.mp hany with ⟨p, hp, hbeq⟩
      have : p.1 = id := by simpa using hbeq
      exact this ▸ List.mem_map_of_mem Prod.fst hp
    constructor
    · exact Or.inl
    · rintro (hx | rfl)
      · exact hx
      · exact hid
  · simp [logKeys]

theorem nodup_keys_addEntry (al : List (Nat × List Event)) (id : Nat)
    (evs : List Event) (h : (logKeys al).Nodup) :
    (logKeys (addEntry al id evs)).Nodup := by
  simp only [addEntry]
  split
  · next hany =>
    have hkeys : logKeys (al.map fun p => if p.1 == id then (p.1, p.2 ++ evs) else p) =
        logKeys al := by
      simp only [logKeys, List.map_map]
      apply List.map_congr_left
      intro p _
      by_cases hp : p.1 = id <;> simp [hp]
    rw [hkeys]; exact h
  · next hany =>
    have hid : id ∉ logKeys al := by
      intro hmem
      rcases List.mem_map.mp hmem with ⟨p, hp, hfst⟩
      exact hany (List.any_eq_true.mpr ⟨p, hp, by simp [hfst]⟩)
    simp only [logKeys, List.map_append]
    simp only [List.nodup_append]
    refine ⟨h, by simp, ?_⟩
    intro a ha hb
    have : a = id := by simpa using hb
    subst this
    exact hid ha

theorem lookup_of_not_mem_keys (al : List (Nat × List Event)) (x : Nat)
    (h : x ∉ logKeys al) : lookupLog al x = [] := by
  have hnone : al.find? (fun p => p.1 == x) = none := by
    rw [List.find?_eq_none]
    intro p hp hbeq
    exact h ((by simpa using hbeq : p.1 = x) ▸ List.mem_map_of_mem Prod.fst hp)
  simp [lookupLog, hnone]

theorem lookup_addEntry (al : List (Nat × List Event)) (id : Nat)
    (evs : List Event) (x : Nat) :
    lookupLog (addEntry al id evs) x =
      lookupLog al x ++ (if x = id then evs else []) := by
  simp only [addEntry]
  split
  · next hany =>
    have hfun : ((fun p => p.1 == x) ∘
          fun p : Nat × List Event => if p.1 == id then (p.1, p.2 ++ evs) else p) =
        (fun p : Nat × List Event => p.1 == x) := by
      funext q
      by_cases hq : q.1 = id <;> simp [Function.comp, hq]
    simp only [lookupLog]
    rw [List.find?_map, hfun]
    cases hf : al.find? (fun p => p.1 == x) with
    | none =>
      by_cases hx : x = id
      · exfalso
        rcases List.any_eq_true.mp hany with ⟨p, hp, hbeq⟩
        have hpid : p.1 = id := by simpa using hbeq
        exact List.find?_eq_none.mp hf p hp (by simp [hpid, hx])
      · simp [hx]
    | some q =>
      have hqx : q.1 = x := by simpa using List.find?_some hf
      by_cases hx : x = id
      · simp [hqx, hx]
      · simp [hqx, hx]
  · next hany =>
    simp only [lookupLog, List.find?_append]
    cases hf : al.find? (fun p => p.1 == x) with
    | none =>
      by_cases hx : x = id
      · subst hx
        simp [Option.or, List.find?_cons]
      · have hbeq : (id == x) = false := by simp [Ne.symm hx]
        simp [Option.or, List.find?_cons, hbeq, hx]
    | some q =>
      by_cases hx : x = id
      · exfalso
        have hqx : q.1 = x := by simpa using List.find?_some hf
        have hqmem : q ∈ al := List.mem_of_find?_eq_some hf
        exact hany (List.any_eq_true.mpr ⟨q, hqmem, by simp [hqx, hx]⟩)
      · simp [Option.or, hx]

theorem totalCount_cons (p : Nat × List Event) (l : List (Nat × List Event)) :
    totalCount (p :: l) = p.2.length + totalCount l := by
  simp [totalCount]

theorem map_update_of_no_key (al : List (Nat × List Event)) (id : Nat)
    (evs : List Event) (h : ∀ p ∈ al, p.1 ≠ id) :
    (al.map fun p => if p.1 == id then (p.1, p.2 ++ evs) else p) = al := by
  conv_rhs => rw [← List.map_id al]
  apply List.map_congr_left
  intro p hp
  simp [h p hp]

theorem totalCount_map_update (al : List (Nat × List Event)) (id : Nat)
    (evs : List Event) (hnd : (logKeys al).Nodup)
    (hmem : (al.any fun p => p.1 == id) = true) :
    totalCount (al.map fun p => if p.1 == id then (p.1, p.2 ++ evs) else p) =
      totalCount al + evs.length := by
  induction al with
  | nil => simp at hmem
  | cons a t ih =>
    simp only [logKeys, List.map_cons] at hnd
    have h1 := List.nodup_cons.mp hnd
    by_cases ha : a.1 = id
    · have hno : ∀ p ∈ t, p.1 ≠ id := by
        intro p hp hpid
        exact h1.1 (show a.1 ∈ List.map Prod.fst t by
          rw [ha, ← hpid]; exact List.mem_map_of_mem Prod.fst hp)
      rw [List.map_cons, map_update_of_no_key t id evs hno]
      have hfa : (if a.1 == id then (a.1, a.2 ++ evs) else a) = (a.1, a.2 ++ evs) := by
        simp [ha]
      rw [hfa, totalCount_cons, totalCount_cons]
      simp only [List.length_append]
      omega
    · have hat : (t.any fun p => p.1 == id) = true := by
        simpa [List.any_cons, ha] using hmem
      rw [List.map_cons]
      have hfa : (if a.1 == id then (a.1, a.2 ++ evs) else a) = a := by simp [ha]
      rw [hfa, totalCount_cons, totalCount_cons, ih h1.2 hat]
      omega

theorem totalCount_addEntry (al : List (Nat × List Event)) (id : Nat)
    (evs : List Event) (h : (logKeys al).Nodup) :
    totalCount (addEntry al id evs) = totalCount al + evs.length := by
  simp only [addEntry]
  split
  · next hany => exact totalCount_map_update al id evs h hany
  · next hany => rw [totalCount_append]; simp [totalCount]

theorem sparse_addEntry (al : List (Nat × List Event)) (id : Nat)
    (evs : List Event) (hal : ∀ p ∈ al, p.2 ≠ []) (hevs : evs ≠ []) :
    ∀ p ∈ addEntry al id evs, p.2 ≠ [] := by
  intro p hp
  simp only [addEntry] at hp
  split at hp
  · rcases List.mem_map.mp hp with ⟨q, hq, rfl⟩
    by_cases hqid : q.1 = id
    · have : (if q.1 == id then (q.1, q.2 ++ evs) else q) = (q.1, q.2 ++ evs) := by
        simp [hqid]
      rw [this]
      intro hc
      exact hevs (List.append_eq_nil.mp hc).2
    · have : (if q.1 == id then (q.1, q.2 ++ evs) else q) = q := by simp [hqid]
      rw [this]
      exact hal q hq
  · rcases List.mem_append.mp hp with hmem | hmem
    · exact hal p hmem
    · rcases List.mem_singleton.mp hmem with rfl
      exact hevs

theorem mergeActivity_cons (acc : List (Nat × List Event))
    (e : Nat × List Event) (es : List (Nat × List Event)) :
    mergeActivity acc (e :: es) = mergeActivity (addEntry acc e.1 e.2) es := rfl

theorem lookup_mergeActivity (es acc : List (Nat × List Event)) (x : Nat)
    (hnd : (logKeys es).Nodup) :
    lookupLog (mergeActivity acc es) x = lookupLog acc x ++ lookupLog es x := by
  induction es generalizing acc with
  | nil => simp [mergeActivity, lookupLog]
  | cons e rest ih =>
    simp only [logKeys, List.map_cons] at hnd
    have h1 := List.nodup_cons.mp hnd
    rw [mergeActivity_cons, ih (addEntry acc e.1 e.2) h1.2, lookup_addEntry]
    by_cases hx : x = e.1
    · have hrest : lookupLog rest x = [] := by
        apply lookup_of_not_mem_keys
        rw [hx]
        exact h1.1
      have hhead : lookupLog (e :: rest) x = e.2 := by
        simp [lookupLog, List.find?_cons, hx]
      rw [hrest, hhead, if_pos hx]
      simp
    · have hhead : lookupLog (e :: rest) x = lookupLog rest x := by
        have : (e.1 == x) = false := by simp [Ne.symm hx]
        simp [lookupLog, List.find?_cons, this]
      rw [hhead, if_neg hx]
      simp

theorem mem_keys_mergeActivity (es acc : List (Nat × List Event)) (x : Nat) :
    x ∈ logKeys (mergeActivity acc es) ↔ x ∈ logKeys acc ∨ x ∈ logKeys es := by
  induction es generalizing acc with
  | nil => simp [mergeActivity, logKeys]
  | cons e rest ih =>
    rw [mergeActivity_cons, ih (addEntry acc e.1 e.2)]
    rw [mem_keys_of_addEntry]
    simp only [logKeys, List.map_cons, List.mem_cons]
    tauto

theorem nodup_keys_mergeActivity (es acc : List (Nat × List Event))
    (h : (logKeys acc).Nodup) : (logKeys (mergeActivity acc es)).Nodup := by
  induction es generalizing acc with
  | nil => exact h
  | cons e rest ih =>
    rw [mergeActivity_cons]
    exact ih (addEntry acc e.1 e.2) (nodup_keys_addEntry acc e.1 e.2 h)

theorem totalCount_mergeActivity (es acc : List (Nat × List Event))
    (h : (logKeys acc).Nodup) :
    totalCount (mergeActivity acc es) = totalCount acc + totalCount es := by
  induction es generalizing acc with
  | nil => simp [mergeActivity, totalCount]
  | cons e rest ih =>
    rw [mergeActivity_cons, ih (addEntry acc e.1 e.2) (nodup_keys_addEntry acc e.1 e.2 h),
      totalCount_addEntry acc e.1 e.2 h, totalCount_cons]
    omega

theorem sparse_mergeActivity (es acc : List (Nat × List Event))
    (hacc : ∀ p ∈ acc, p.2 ≠ []) (hes : ∀ p ∈ es, p.2 ≠ []) :
    ∀ p ∈ mergeActivity acc es, p.2 ≠ [] := by
  induction es generalizing acc with
  | nil => exact hacc
  | cons e rest ih =>
    rw [mergeActivity_cons]
    apply ih (addEntry acc e.1 e.2)
    · exact sparse_addEntry acc e.1 e.2 hacc (hes e (List.mem_cons_self e rest))
    · intro p hp
      exact hes p (List.mem_cons_of_mem e hp)

theorem mergeActivity_disjoint (es acc : List (Nat × List Event))
    (hdis : ∀ k ∈ logKeys es, k ∉ logKeys acc) (hnd : (logKeys es).Nodup) :
    mergeActivity acc es = acc ++ es := by
  induction es generalizing acc with
  | nil => simp [mergeActivity]
  | cons e rest ih =>
    simp only [logKeys, List.map_cons] at hnd hdis
    have h1 := List.nodup_cons.mp hnd
    have hnotin : e.1 ∉ logKeys acc := hdis e.1 (List.mem_cons_self e.1 _)
    have hany : (acc.any fun p => p.1 == e.1) = false := by
      rw [List.any_eq_false]
      intro p hp hbeq
      exact hnotin ((by simpa using hbeq : p.1 = e.1) ▸ List.mem_map_of_mem Prod.fst hp)
    have hadd : addEntry acc e.1 e.2 = acc ++ [e] := by
      simp only [addEntry, hany]
      simp
    rw [mergeActivity_cons, hadd, ih (acc ++ [e]) ?_ h1.2]
    · simp
    · intro k hk
      simp only [logKeys, List.map_append]
      rw [List.mem_append]
      rintro (hmem | hmem)
      · exact hdis k (List.mem_cons_of_mem _ hk) hmem
      · have : k = e.1 := by simpa [logKeys] using hmem
        exact h1.1 (this ▸ hk)

theorem foldl_mergeStep_summary (logs : List EventLog) :
    ∀ C : EventLog, (logs.foldl mergeStep C).summary =
      (logs.map EventLog.summary).foldl Summary.add C.summary := by
  induction logs with
  | nil => intro C; rfl
  | cons L rest ih =>
    intro C
    rw [List.foldl_cons, List.map_cons, List.foldl_cons, ih]
    rfl

theorem foldl_mergeStep_lookup (logs : List EventLog) (x : Nat) :
    ∀ C : EventLog, (∀ L ∈ logs, wfLog L) →
    lookupLog (logs.foldl mergeStep C).activityLog x =
      lookupLog C.activityLog x ++
        (logs.map fun L => lookupLog L.activityLog x).flatten := by
  induction logs with
  | nil => intro C _; simp
  | cons L rest ih =>
    intro C h
    rw [List.foldl_cons, ih (mergeStep C L) (fun M hM => h M (List.mem_cons_of_mem L hM))]
    have hstep : lookupLog (mergeStep C L).activityLog x =
        lookupLog C.activityLog x ++ lookupLog L.activityLog x :=
      lookup_mergeActivity L.activityLog C.activityLog x (h L (List.mem_cons_self L rest))
    rw [hstep, List.map_cons, List.flatten_cons, List.append_assoc]

theorem mem_keys_foldl_mergeStep (logs : List EventLog) (x : Nat) :
    ∀ C : EventLog,
    (x ∈ logKeys C.activityLog ∨ ∃ L ∈ logs, x ∈ logKeys L.activityLog) →
    x ∈ logKeys (logs.foldl mergeStep C).activityLog := by
  induction logs with
  | nil =>
    intro C h
    rcases h with h | ⟨L, hL, _⟩
    · exact h
    · cases hL
  | cons L rest ih =>
    intro C h
    rw [List.foldl_cons]
    apply ih (mergeStep C L)
    rcases h with h | ⟨M, hM, hx⟩
    · exact Or.inl ((mem_keys_mergeActivity L.activityLog C.activityLog x).mpr (Or.inl h))
    · rcases List.mem_cons.mp hM with rfl | hM'
      · exact Or.inl ((mem_keys_mergeActivity M.activityLog C.activityLog x).mpr (Or.inr hx))
      · exact Or.inr ⟨M, hM', hx⟩

theorem nodup_keys_foldl_mergeStep (logs : List EventLog) :
    ∀ C : EventLog, (logKeys C.activityLog).Nodup →
    (logKeys (logs.foldl mergeStep C).activityLog).Nodup := by
  induction logs with
  | nil => intro C h; exact h
  | cons L rest ih =>
    intro C h
    rw [List.foldl_cons]
    exact ih (mergeStep C L) (nodup_keys_mergeActivity L.activityLog C.activityLog h)

theorem totalCount_foldl_mergeStep (logs : List EventLog) :
    ∀ C : EventLog, (logKeys C.activityLog).Nodup →
    totalCount (logs.foldl mergeStep C).activityLog =
      totalCount C.activityLog +
        (logs.map fun L => totalCount L.activityLog).sum := by
  induction logs with
  | nil => intro C _; simp
  | cons L rest ih =>
    intro C h
    rw [List.foldl_cons,
      ih (mergeStep C L) (nodup_keys_mergeActivity L.activityLog C.activityLog h)]
    have hstep : totalCount (mergeStep C L).activityLog =
        totalCount C.activityLog + totalCount L.activityLog :=
      totalCount_mergeActivity L.activityLog C.activityLog h
    rw [hstep, List.map_cons, List.sum_cons]
    omega

theorem sparse_foldl_mergeStep (logs : List EventLog) :
    ∀ C : EventLog, sparseLog C.activityLog →
    (∀ L ∈ logs, sparseLog L.activityLog) →
    sparseLog (logs.foldl mergeStep C).activityLog := by
  induction logs with
  | nil => intro C h _; exact h
  | cons L rest ih =>
    intro C h hall
    rw [List.foldl_cons]
    apply ih (mergeStep C L)
    · exact sparse_mergeActivity L.activityLog C.activityLog h
        (hall L (List.mem_cons_self L rest))
    · intro M hM
      exact hall M (List.mem_cons_of_mem L hM)

theorem foldl_add_total (ss : List Summary) :
    ∀ z : Summary, (ss.foldl Summary.add z).total_events =
      z.total_events + (ss.map Summary.total_events).sum := by
  induction ss with
  | nil => intro z; simp
  | cons s rest ih =>
    intro z
    rw [List.foldl_cons, ih, List.map_cons, List.sum_cons, total_events_add]
    omega

theorem foldl_add_others (ss : List Summary) :
    ∀ z : Summary, othersSum (ss.foldl Summary.add z) =
      othersSum z + (ss.map othersSum).sum := by
  induction ss with
  | nil => intro z; simp
  | cons s rest ih =>
    intro z
    rw [List.foldl_cons, ih, List.map_cons, List.sum_cons, othersSum_add]
    omega

theorem foldl_add_perm {l l' : List Summary} (h : l.Perm l') :
    ∀ z : Summary, l.foldl Summary.add z = l'.foldl Summary.add z := by
  induction h with
  | nil => intro z; rfl
  | cons a _ ih => intro z; rw [List.foldl_cons, List.foldl_cons]; exact ih _
  | swap a b t =>
    intro z
    rw [List.foldl_cons, List.foldl_cons, List.foldl_cons, List.foldl_cons,
      Summary.add_right_comm]
  | trans _ _ ih1 ih2 => intro z; rw [ih1, ih2]

theorem bblStage_filter (prev curr : NFTRecord) (i : Nat) (st : DetState) :
    (bblStage prev curr i st).1.filter isOwnership = st.1.filter isOwnership := by
  dsimp only [bblStage]
  split_ifs <;> simp [List.filter_append, isOwnership]

theorem boostStage_filter (prev curr : NFTRecord) (i : Nat) (st : DetState) :
    (boostStage prev curr i st).1.filter isOwnership = st.1.filter isOwnership := by
  dsimp only [boostStage]
  split_ifs <;> simp [List.filter_append, isOwnership]

theorem daodaoStage_filter (prev curr : NFTRecord) (i : Nat) (st : DetState) :
    (daodaoStage prev curr i st).1.filter isOwnership = st.1.filter isOwnership := by
  dsimp only [daodaoStage]
  split_ifs <;> simp [List.filter_append, isOwnership]

theorem enterpriseStage_filter (prev curr : NFTRecord) (i : Nat) (st : DetState) :
    (enterpriseStage prev curr i st).1.filter isOwnership = st.1.filter isOwnership := by
  dsimp only [enterpriseStage]
  split_ifs <;> simp [List.filter_append, isOwnership]

theorem brokenStage_filter (prev curr : NFTRecord) (i : Nat) (st : DetState) :
    (brokenStage prev curr i st).1.filter isOwnership = st.1.filter isOwnership := by
  dsimp only [brokenStage]
  split_ifs <;> simp [List.filter_append, isOwnership]

theorem processPair_filter (prev curr : NFTRecord) (i : Nat) (st : DetState) :
    (processPair prev curr i st).1.filter isOwnership =
      (ownerStage prev curr i st).1.filter isOwnership := by
  dsimp only [processPair]
  rw [brokenStage_filter, enterpriseStage_filter, daodaoStage_filter,
    boostStage_filter, bblStage_filter]

theorem ownerStage_filter_changed (prev curr : NFTRecord) (i : Nat)
    (st : DetState) (h : prev.owner ≠ curr.owner) :
    (ownerStage prev curr i st).1.filter isOwnership =
      st.1.filter isOwnership ++
        [if prev.bbl = true then Event.sale "bbl" prev.owner curr.owner i
         else if prev.boost = true then Event.sale "boost" prev.owner curr.owner i
         else Event.transfer prev.owner curr.owner i] := by
  dsimp only [ownerStage]
  rw [if_pos h]
  split_ifs <;> simp [List.filter_append, isOwnership]

theorem detectEvents_def (snapshots : List Snapshot) :
    detectEvents snapshots =
      { summary := ((List.range' 1 10000).foldl (detectStep snapshots) ([], zeroSummary)).2,
        activityLog :=
          ((List.range' 1 10000).foldl (detectStep snapshots) ([], zeroSummary)).1 } := rfl

set_option maxRecDepth 100000 in
/-- C1 (code bug): the period selector of `aggregatePeriod` filters stored
file keys only by the leading year of the target period key, so a daily key
from a different month of the same year is selected for a monthly rollup;
the output also follows the incoming order rather than sorted order. The
spec (section 4.3) instead demands full period membership. -/
theorem c1_period_selector_year_bug :
    selectFiles ("2025-01".toList)
        ["2025-01-05.json".toList, "2025-06-10.json".toList,
         "2024-12-31.json".toList] 31 =
      ["2025-01-05.json".toList, "2025-06-10.json".toList] ∧
    monthMembership ("2025-01".toList) ("2025-06-10.json".toList) = false ∧
    selectFiles ("2025-01".toList)
        ["2025-06-10.json".toList, "2025-01-05.json".toList] 31 =
      ["2025-06-10.json".toList, "2025-01-05.json".toList] := by
  refine ⟨?_, ?_, ?_⟩ <;> decide

/-- C2 (code bug): the `/process-daily-events` handler only rejects an
empty snapshot list; with exactly one snapshot it succeeds and returns the
all-zero event log instead of the `InsufficientData` failure required by
the spec (sections 4.1 and 7). -/
theorem c2_single_snapshot_zero_filled :
    processDailyEvents [[sampleRecord]] =
      Except.ok { summary := zeroSummary, activityLog := [] } ∧
    zeroSummary.total_events = 0 := by
  constructor
  · simp only [processDailyEvents]
    rw [if_neg (by simp)]
    rw [detectEvents_single]
  · rfl

/-- C3: invariant I1 — for every log produced by `detectEvents`, and for
every merge of logs each satisfying I1, `total_events` equals the sum of
the other twelve counters and equals the total event count across the
activity log. -/
theorem c3_counter_consistency :
    (∀ snaps : List Snapshot, counterConsistent (detectEvents snaps)) ∧
    (∀ logs : List EventLog, (∀ L ∈ logs, counterConsistent L) →
      counterConsistent (mergeLogs logs)) := by
  constructor
  · intro snaps
    have h := detect_fold_inv snaps (List.range' 1 10000) ([], zeroSummary) rfl rfl
    constructor
    · show (detectEvents snaps).summary.total_events = othersSum (detectEvents snaps).summary
      simp only [detectEvents_def snaps]
      exact h.1
    · show (detectEvents snaps).summary.total_events =
        totalCount (detectEvents snaps).activityLog
      simp only [detectEvents_def snaps]
      exact h.2
  · intro logs h
    have hs := foldl_mergeStep_summary logs emptyCombined
    have ht := foldl_add_total (logs.map EventLog.summary) zeroSummary
    have ho := foldl_add_others (logs.map EventLog.summary) zeroSummary
    have hc := totalCount_foldl_mergeStep logs emptyCombined (by simp [emptyCombined, logKeys])
    have hsum1 : ((logs.map EventLog.summary).map Summary.total_events).sum =
        ((logs.map EventLog.summary).map othersSum).sum := by
      rw [List.map_map, List.map_map]
      exact congrArg List.sum (List.map_congr_left fun L hL => (h L hL).1)
    have hsum2 : ((logs.map EventLog.summary).map Summary.total_events).sum =
        (logs.map fun L => totalCount L.activityLog).sum := by
      rw [List.map_map]
      exact congrArg List.sum (List.map_congr_left fun L hL => (h L hL).2)
    constructor
    · show (mergeLogs logs).summary.total_events = othersSum (mergeLogs logs).summary
      simp only [mergeLogs]
      rw [hs]
      simp only [show emptyCombined.summary = zeroSummary from rfl]
      rw [ht, ho]
      simp only [show zeroSummary.total_events = 0 from rfl,
        show othersSum zeroSummary = 0 from rfl]
      omega
    · show (mergeLogs logs).summary.total_events = totalCount (mergeLogs logs).activityLog
      simp only [mergeLogs]
      rw [hs]
      simp only [show emptyCombined.summary = zeroSummary from rfl]
      rw [ht, hc]
      simp only [show zeroSummary.total_events = 0 from rfl,
        show totalCount emptyCombined.activityLog = 0 from rfl]
      omega

/-- C3 witness: merging two concrete I1-consistent daily logs yields an
I1-consistent log. -/
theorem c3_counter_consistency_witness : counterConsistent (mergeLogs [logA, logB]) :=
  c3_counter_consistency.2 [logA, logB] (by
    intro L hL
    rcases List.mem_cons.mp hL with rfl | hL'
    · exact ⟨by decide, by decide⟩
    · rcases List.mem_singleton.mp hL' with rfl
      exact ⟨by decide, by decide⟩)

/-- C4: on an owner change the pair classifier emits exactly one
ownership-class event, `sale` on `bbl` winning over `boost` when both
listing flags are set, else `sale` on `boost`, else `transfer`; never more
than one ownership-class event per pair. -/
theorem c4_ownership_precedence :
    ∀ (prev curr : NFTRecord) (i : Nat) (s : Summary),
    (prev.owner ≠ curr.owner →
      (processPair prev curr i ([], s)).1.filter isOwnership =
        [if prev.bbl = true then Event.sale "bbl" prev.owner curr.owner i
         else if prev.boost = true then Event.sale "boost" prev.owner curr.owner i
         else Event.transfer prev.owner curr.owner i]) ∧
    ((processPair prev curr i ([], s)).1.filter isOwnership).length ≤ 1 := by
  intro prev curr i s
  constructor
  · intro h
    rw [processPair_filter, ownerStage_filter_changed prev curr i ([], s) h]
    simp
  · rw [processPair_filter]
    dsimp only [ownerStage]
    split_ifs <;> simp [isOwnership]

/-- C4 witness: with both listing flags set on the previous record and an
owner change, the single emitted ownership event is the `bbl` sale. -/
theorem c4_ownership_precedence_witness :
    (processPair recPrevBoth recCurrBoth 1 ([], zeroSummary)).1.filter isOwnership =
      [Event.sale "bbl" "x" "y" 1] :=
  ((c4_ownership_precedence recPrevBoth recCurrBoth 1 zeroSummary).1 (by decide)).trans
    (by decide)

/-- C5: the merged activity log entry of any entity is the concatenation,
in input order, of that entity's event lists across all inputs; in
particular for two logs, and every key present in an input is present in
the output. -/
theorem c5_merge_concatenation :
    (∀ logs : List EventLog, (∀ L ∈ logs, wfLog L) → ∀ x : Nat,
      lookupLog (mergeLogs logs).activityLog x =
        (logs.map fun L => lookupLog L.activityLog x).flatten) ∧
    (∀ A B : EventLog, wfLog A → wfLog B → ∀ x : Nat,
      lookupLog (mergeLogs [A, B]).activityLog x =
        lookupLog A.activityLog x ++ lookupLog B.activityLog x) ∧
    (∀ logs : List EventLog, ∀ L ∈ logs, ∀ x ∈ logKeys L.activityLog,
      x ∈ logKeys (mergeLogs logs).activityLog) := by
  refine ⟨?_, ?_, ?_⟩
  · intro logs h x
    have hm := foldl_mergeStep_lookup logs x emptyCombined h
    exact hm.trans (by simp [emptyCombined, lookupLog])
  · intro A B hA hB x
    have hall : ∀ L ∈ [A, B], wfLog L := by
      intro L hL
      rcases List.mem_cons.mp hL with rfl | hL'
      · exact hA
      · rcases List.mem_singleton.mp hL' with rfl
        exact hB
    have hm := foldl_mergeStep_lookup [A, B] x emptyCombined hall
    exact hm.trans (by simp [emptyCombined, lookupLog])
  · intro logs L hL x hx
    exact mem_keys_foldl_mergeStep logs x emptyCombined (Or.inr ⟨L, hL, hx⟩)

/-- C5 witness: merging two concrete logs concatenates entity 42's lists. -/
theorem c5_merge_concatenation_witness :
    lookupLog (mergeLogs [logA, logB]).activityLog 42 =
      lookupLog logA.activityLog 42 ++ lookupLog logB.activityLog 42 :=
  c5_merge_concatenation.2.1 logA logB (by unfold wfLog logKeys; decide)
    (by unfold wfLog logKeys; decide) 42

/-- C6: the merged summary is the element-wise sum of the input summaries,
and this summation is associative (three-way merge equals staged merge) and
commutative (any permutation of the inputs yields the same summary). -/
theorem c6_merge_summary_algebra :
    (∀ logs : List EventLog, (mergeLogs logs).summary =
      (logs.map EventLog.summary).foldl Summary.add zeroSummary) ∧
    (∀ A B C : EventLog,
      (mergeLogs [A, B, C]).summary = (mergeLogs [mergeLogs [A, B], C]).summary) ∧
    (∀ logs logs' : List EventLog, logs.Perm logs' →
      (mergeLogs logs).summary = (mergeLogs logs').summary) := by
  have hkey : ∀ logs : List EventLog, (mergeLogs logs).summary =
      (logs.map EventLog.summary).foldl Summary.add zeroSummary := by
    intro logs
    exact foldl_mergeStep_summary logs emptyCombined
  refine ⟨hkey, ?_, ?_⟩
  · intro A B C
    simp only [hkey, List.map_cons, List.map_nil, List.foldl_cons, List.foldl_nil,
      Summary.zero_add]
  · intro logs logs' hperm
    rw [hkey logs, hkey logs']
    exact foldl_add_perm (hperm.map EventLog.summary) zeroSummary

/-- C6 witness: swapping two concrete inputs leaves the summary unchanged. -/
theorem c6_merge_summary_algebra_witness :
    (mergeLogs [logA, logB]).summary = (mergeLogs [logB, logA]).summary :=
  c6_merge_summary_algebra.2.2 [logA, logB] [logB, logA] (List.Perm.swap logB logA [])

/-- C7: invariant P2 — no entity appears in an activity log with an empty
event list, both for logs produced by `detectEvents` and for merges of
logs satisfying the same property. -/
theorem c7_sparse_activity_log :
    (∀ snaps : List Snapshot, sparseLog (detectEvents snaps).activityLog) ∧
    (∀ logs : List EventLog, (∀ L ∈ logs, sparseLog L.activityLog) →
      sparseLog (mergeLogs logs).activityLog) := by
  constructor
  · intro snaps p hp
    have hp' : p ∈ ((List.range' 1 10000).foldl (detectStep snaps) ([], zeroSummary)).1 := by
      simpa only [detectEvents_def snaps] using hp
    exact detect_fold_sparse snaps (List.range' 1 10000) ([], zeroSummary)
      (by intro q hq; cases hq) p hp'
  · intro logs h
    exact sparse_foldl_mergeStep logs emptyCombined (by intro q hq; cases hq) h

/-- C7 witness: merging a concrete sparse log keeps its entry non-empty. -/
theorem c7_sparse_activity_log_witness :
    ((42, [evTransfer]) : Nat × List Event).2 ≠ [] :=
  c7_sparse_activity_log.2 [logA]
    (by
      intro L hL
      rcases List.mem_singleton.mp hL with rfl
      intro p hp
      rcases List.mem_singleton.mp hp with rfl
      simp)
    (42, [evTransfer]) (by decide)

/-- C8: merging preserves events verbatim — every event of every input,
with its originally computed hour offset, is an element of the merged
entry for the same entity. -/
theorem c8_verbatim_event_preservation :
    ∀ logs : List EventLog, (∀ L ∈ logs, wfLog L) →
    ∀ L ∈ logs, ∀ x : Nat, ∀ e ∈ lookupLog L.activityLog x,
    e ∈ lookupLog (mergeLogs logs).activityLog x := by
  intro logs h L hL x e he
  have hm := foldl_mergeStep_lookup logs x emptyCombined h
  show e ∈ lookupLog (logs.foldl mergeStep emptyCombined).activityLog x
  rw [hm]
  apply List.mem_append.mpr
  right
  exact List.mem_flatten.mpr ⟨lookupLog L.activityLog x, List.mem_map_of_mem _ hL, he⟩

/-- C8 witness: the concrete transfer event, hour offset included, survives
a merge unchanged. -/
theorem c8_verbatim_event_preservation_witness :
    evTransfer ∈ lookupLog (mergeLogs [logA]).activityLog 42 :=
  c8_verbatim_event_preservation [logA]
    (by
      intro L hL
      rcases List.mem_singleton.mp hL with rfl
      unfold wfLog logKeys
      decide)
    logA (List.mem_singleton.mpr rfl) 42 evTransfer (by decide)

/-- C9: merging no logs yields the zero event log — all thirteen counters
are zero and the activity log is empty — and the zero log is a left and
right identity for the merge on well-formed logs. -/
theorem c9_empty_merge_zero_identity :
    ((mergeLogs []).summary.bbl_sales = 0 ∧ (mergeLogs []).summary.boost_sales = 0 ∧
     (mergeLogs []).summary.transfers = 0 ∧ (mergeLogs []).summary.bbl_listings = 0 ∧
     (mergeLogs []).summary.bbl_delistings = 0 ∧ (mergeLogs []).summary.boost_listings = 0 ∧
     (mergeLogs []).summary.boost_delistings = 0 ∧ (mergeLogs []).summary.daodao_stakes = 0 ∧
     (mergeLogs []).summary.daodao_unstakes = 0 ∧
     (mergeLogs []).summary.enterprise_stakes = 0 ∧
     (mergeLogs []).summary.enterprise_unstakes = 0 ∧ (mergeLogs []).summary.breaks = 0 ∧
     (mergeLogs []).summary.total_events = 0 ∧ (mergeLogs []).activityLog = []) ∧
    (∀ A : EventLog, wfLog A →
      mergeLogs [mergeLogs [], A] = A ∧ mergeLogs [A, mergeLogs []] = A) := by
  constructor
  · exact ⟨rfl, rfl, rfl, rfl, rfl, rfl, rfl, rfl, rfl, rfl, rfl, rfl, rfl, rfl⟩
  · intro A hA
    rcases A with ⟨s, al⟩
    have hleft : mergeStep emptyCombined ⟨s, al⟩ = ⟨s, al⟩ := by
      have hact : mergeActivity [] al = al := by
        have hd := mergeActivity_disjoint al [] (by intro k _; simp [logKeys]) hA
        simpa using hd
      show EventLog.mk (Summary.add zeroSummary s) (mergeActivity [] al) = ⟨s, al⟩
      rw [Summary.zero_add, hact]
    constructor
    · show mergeStep (mergeStep emptyCombined emptyCombined) ⟨s, al⟩ = ⟨s, al⟩
      rw [show mergeStep emptyCombined emptyCombined = emptyCombined from rfl]
      exact hleft
    · show mergeStep (mergeStep emptyCombined ⟨s, al⟩) emptyCombined = ⟨s, al⟩
      rw [hleft]
      show EventLog.mk (Summary.add s zeroSummary) (mergeActivity al []) = ⟨s, al⟩
      rw [Summary.add_zero]
      rfl

/-- C9 witness: the zero log is an identity around a concrete log. -/
theorem c9_empty_merge_zero_identity_witness :
    mergeLogs [mergeLogs [], logA] = logA ∧ mergeLogs [logA, mergeLogs []] = logA :=
  c9_empty_merge_zero_identity.2 logA (by unfold wfLog logKeys; decide)

/-- C10: records whose id is outside 1..10000 never contribute events —
removing them does not change `detectEvents` — and every key of the
produced activity log lies in 1..10000. -/
theorem c10_entity_id_range :
    ∀ snaps : List Snapshot,
    (∀ p ∈ (detectEvents snaps).activityLog, 1 ≤ p.1 ∧ p.1 ≤ 10000) ∧
    detectEvents (snaps.map fun s =>
        s.filter fun r => decide (1 ≤ r.id ∧ r.id ≤ 10000)) = detectEvents snaps := by
  intro snaps
  constructor
  · intro p hp
    have hp' : p ∈ ((List.range' 1 10000).foldl (detectStep snaps) ([], zeroSummary)).1 := by
      simpa only [detectEvents_def snaps] using hp
    rcases detect_fold_keys snaps (List.range' 1 10000) ([], zeroSummary) p hp' with h | h
    · cases h
    · have hb := List.mem_range'_1.mp h
      omega
  · have hcong : ∀ (acc : List (Nat × List Event) × Summary) (id : Nat),
        id ∈ List.range' 1 10000 →
        detectStep (snaps.map fun s =>
            s.filter fun r => decide (1 ≤ r.id ∧ r.id ≤ 10000)) acc id =
          detectStep snaps acc id := by
      intro acc id hid
      have hb := List.mem_range'_1.mp hid
      have hq : ∀ r : NFTRecord, r.id = id →
          decide (1 ≤ r.id ∧ r.id ≤ 10000) = true := by
        intro r hr
        subst hr
        exact decide_eq_true (by omega)
      simp only [detectStep]
      rw [processEntity_congr _ id hq snaps 1 ([], acc.2)]
    have hfold := foldl_congr_on (List.range' 1 10000)
      (detectStep (snaps.map fun s => s.filter fun r => decide (1 ≤ r.id ∧ r.id ≤ 10000)))
      (detectStep snaps) hcong ([], zeroSummary)
    exact congrArg (fun res => EventLog.mk res.2 res.1) hfold

/-- C10 witness: a snapshot containing only an out-of-range record behaves
exactly like the same snapshot with that record removed. -/
theorem c10_entity_id_range_witness :
    detectEvents ([[recOutOfRange]].map fun s =>
        s.filter fun r => decide (1 ≤ r.id ∧ r.id ≤ 10000)) =
      detectEvents [[recOutOfRange]] :=
  (c10_entity_id_range [[recOutOfRange]]).2
